/-
Verification of the Content-Generation-Crew pipeline core.

Shallow embedding of the program's core logic:
  * the QA retry controller (`src/content_crew/agents/production.py`, `run_production`),
  * the QA pass check shared with `src/content_crew/flow.py` (`run_production_phase`),
  * the banned-phrase checker tool (`src/content_crew/tools/banned_phrase_checker.py`),
  * the priority-descending phase iteration order (`src/content_crew/flow.py`),
  * the conversational tool-use loop (`src/content_crew/gemini_client.py`, `chat`),
  * the tool-declaration translator (`_convert_gemini_properties` / `_convert_tool_declarations`),
  * the topic-map CSV parser (`ContentFlow._parse_topic_map`).

Python strings are modelled as `List Char`; Python dicts with a known key set are
modelled as structures with `Option` fields marking key presence; Python exceptions
are modelled with `Except`.
-/

import Mathlib

namespace ContentCrew

/-! ### String primitives (models of Python `str` operations on `List Char`) -/

/-- Model of Python `str.lower()` (ASCII case mapping, characterwise). -/
def lowerStr (s : List Char) : List Char := s.map Char.toLower

/-- Model of Python `str.upper()` (ASCII case mapping, characterwise). -/
def upperStr (s : List Char) : List Char := s.map Char.toUpper

/-- Model of the Python substring test `needle in hay` (contiguous substring). -/
def strContains (hay needle : List Char) : Bool := decide (needle <:+: hay)

/-- The needle occurs in the hay ignoring letter case. -/
def occursCaseInsensitive (needle hay : List Char) : Prop :=
  upperStr needle <:+: upperStr hay

instance (needle hay : List Char) : Decidable (occursCaseInsensitive needle hay) := by
  unfold occursCaseInsensitive; infer_instance

/-! ### QA pass check

Embeds the condition at `src/content_crew/agents/production.py:248`
(`if "QA Status: PASSED" in result or "PASSED" in result.upper():`), which is
also the condition at `src/content_crew/flow.py:327` for `result_text`. -/

/-- The QA pass decision applied to a review output, exactly as both
`run_production` and `ContentFlow.run_production_phase` compute it. -/
def qaPassedCheck (result : List Char) : Bool :=
  strContains result ("QA Status: PASSED".data) ||
    strContains (upperStr result) ("PASSED".data)

/-! ### QA retry controller

Embeds the QA loop of `run_production` (`src/content_crew/agents/production.py:179-258`):

    for attempt in range(1, max_qa_attempts + 1):
        result = chat(... qa_task built from `article` ...)
        if "QA Status: PASSED" in result or "PASSED" in result.upper():
            return result, True, attempt
        article = result
    return article, False, max_qa_attempts

The review step (the `chat` call on the QA task) is abstracted as a function
`review : Nat → List Char → List Char` of the attempt number and the current
article text, since the qa_task prompt is built from exactly those two varying
inputs. The record additionally tracks how many review invocations ran. -/

structure QARunResult where
  text : List Char
  passed : Bool
  attemptsUsed : Nat
  invocations : Nat
deriving DecidableEq, Repr

/-- The `for attempt in range(1, max_qa_attempts + 1)` body of `run_production`,
iterating over the list of remaining attempt numbers. -/
def qaLoop (review : Nat → List Char → List Char) (maxAttempts : Nat) :
    List Nat → List Char → QARunResult
  | [], article => ⟨article, false, maxAttempts, 0⟩
  | a :: rest, article =>
    let result := review a article
    if qaPassedCheck result then
      ⟨result, true, a, 1⟩
    else
      let r := qaLoop review maxAttempts rest result
      ⟨r.text, r.passed, r.attemptsUsed, r.invocations + 1⟩

/-- The QA phase of `run_production`: the writer output `article` enters the QA
retry loop with attempt numbers `1, ..., maxAttempts` (Python
`range(1, max_qa_attempts + 1)`). -/
def run_production (article : List Char) (review : Nat → List Char → List Char)
    (maxAttempts : Nat) : QARunResult :=
  qaLoop review maxAttempts (List.range' 1 maxAttempts) article

/-- The sequence of review outputs along a `run_production` execution:
`qaTrace review article i` is the output of attempt `i` (1-based); index `0`
is the initial writer article. Attempt `i + 1` reviews the output of attempt
`i`, because `run_production` does `article = result` before retrying. -/
def qaTrace (review : Nat → List Char → List Char) (article : List Char) : Nat → List Char
  | 0 => article
  | i + 1 => review (i + 1) (qaTrace review article i)

/-! ### Banned-phrase checker

Embeds `BannedPhraseCheckerTool._run` (`src/content_crew/tools/banned_phrase_checker.py:30-57`)
and the `BANNED_PHRASES` constant (`src/content_crew/constants.py:29-52`). -/

/-- The 22 banned phrases of `src/content_crew/constants.py`. -/
def BANNED_PHRASES : List (List Char) :=
  [ "In today's digital landscape".data
  , "game-changer".data
  , "unlock".data
  , "leverage".data
  , "dive in".data
  , "deep dive".data
  , "navigate".data
  , "elevate".data
  , "robust".data
  , "It's important to note".data
  , "It's worth noting".data
  , "In conclusion".data
  , "Without further ado".data
  , "At the end of the day".data
  , "seamless".data
  , "seamlessly".data
  , "cutting-edge".data
  , "revolutionary".data
  , "empower".data
  , "empowering".data
  , "holistic".data
  , "synergy".data ]

/-- The match positions of the `content_lower.find(phrase_lower, start)` scan
with `start = idx + 1`: every index of `hay` at which `needle` starts,
in increasing order (overlapping matches included). -/
def findOccPositions (needle hay : List Char) : List Nat :=
  (List.range (hay.length + 1)).filter (fun i => needle.isPrefixOf (hay.drop i))

/-- The context snippet of one violation line: Python
`content[max(0, idx - 30) : min(len(content), idx + len(phrase) + 30)].replace("\n", " ")`. -/
def contextSnippet (content : List Char) (idx plen : Nat) : List Char :=
  let cs := idx - 30
  let ce := min content.length (idx + plen + 30)
  ((content.drop cs).take (ce - cs)).map (fun c => if c = '\n' then ' ' else c)

/-- One violation line: Python `f'  - "{phrase}" found: "...{context}..."'`. -/
def violationLine (content phrase : List Char) (idx : Nat) : List Char :=
  "  - \"".data ++ phrase ++ "\" found: \"...".data ++
    contextSnippet content idx phrase.length ++ "...\"".data

/-- The `violations` list accumulated by `_run`: for each banned phrase in order,
one line per match position of the lowered phrase in the lowered content.
(The Python `if phrase_lower in content_lower` guard only skips phrases with no
match positions, so it does not change the accumulated list.) -/
def bannedViolations (content : List Char) : List (List Char) :=
  BANNED_PHRASES.flatMap (fun p =>
    (findOccPositions (lowerStr p) (lowerStr content)).map (violationLine content p))

/-- Total number of case-insensitive occurrences of one phrase in the content. -/
def phraseOccCount (content p : List Char) : Nat :=
  (findOccPositions (lowerStr p) (lowerStr content)).length

/-- The return value of `BannedPhraseCheckerTool._run`. -/
def bannedPhraseCheckerRun (content : List Char) : List Char :=
  let violations := bannedViolations content
  if violations.isEmpty then
    "PASSED: No banned phrases found in the content.".data
  else
    "FAILED: Found ".data ++ (Nat.repr violations.length).data ++
      " banned phrase violation(s):\n".data ++ List.intercalate ['\n'] violations

/-! ### Data model (from `src/content_crew/models.py`) -/

/-- A row of the topic map (`TopicMapEntry` in `models.py`). Field order and
defaults follow the pydantic model; `priority_score` is validated `ge=1, le=10`. -/
structure TopicMapEntry where
  topic_level : List Char
  parent_cluster : List Char
  topic_name : List Char
  primary_keyword : List Char
  secondary_keywords : List Char
  search_intent : List Char
  content_type : List Char
  word_count_min : Int
  word_count_max : Int
  target_entities : List Char
  questions_to_answer : List Char
  information_gain_opportunity : List Char
  rag_optimization_notes : List Char
  internal_link_targets : List Char
  priority_score : Int
  competition_level : List Char
  serp_features_opportunity : List Char
deriving DecidableEq, Repr

/-- Metadata for a generated content brief (`ContentBrief` in `models.py`). -/
structure ContentBrief where
  topic_name : List Char
  filename : List Char
  priority_score : Int
  content_type : List Char
  word_count_min : Int
  word_count_max : Int
deriving DecidableEq, Repr

/-! ### Priority-descending iteration order

Both phase loops call Python `sorted(xs, key=lambda t: t.priority_score, reverse=True)`
(`src/content_crew/flow.py:173-175` and `flow.py:273`). Python's `sorted` is a
stable sort; with `reverse=True` it yields a non-increasing order in which
elements of equal key keep their original relative order. `sortedByDesc` models
that builtin as a stable insertion sort by a descending key. -/

/-- Insert `x` in front of the first element whose key does not exceed `x`'s key.
Elements with a strictly greater key stay in front of `x`; tied elements already
in the list came later in the input, so `x` goes before them. -/
def insertDesc {α : Type} (key : α → Int) (x : α) : List α → List α
  | [] => [x]
  | y :: ys => if key y ≤ key x then x :: y :: ys else y :: insertDesc key x ys

/-- Model of Python `sorted(xs, key=key, reverse=True)`: a stable descending sort. -/
def sortedByDesc {α : Type} (key : α → Int) : List α → List α
  | [] => []
  | x :: xs => insertDesc key x (sortedByDesc key xs)

/-- Iteration order of `ContentFlow.run_brief_phase` over the topic entries
(`flow.py:173-175`). -/
def briefPhaseOrder (entries : List TopicMapEntry) : List TopicMapEntry :=
  sortedByDesc (fun t => t.priority_score) entries

/-- Iteration order of `ContentFlow.run_production_phase` over the briefs
(`flow.py:273`). -/
def productionPhaseOrder (briefs : List ContentBrief) : List ContentBrief :=
  sortedByDesc (fun b => b.priority_score) briefs

/-- A topic entry with the given name and priority score and all other fields
at the model's defaults (used for concrete iteration-order examples). -/
def mkTopicEntry (name : List Char) (score : Int) : TopicMapEntry :=
  ⟨"supporting".data, [], name, [], [], "informational".data, "guide".data,
   1500, 2500, [], [], [], [], [], score, "medium".data, []⟩

/-- A brief with the given name and priority score and default remaining fields. -/
def mkBrief (name : List Char) (score : Int) : ContentBrief :=
  ⟨name, [], score, "guide".data, 1500, 2500⟩

/-! ### Conversational tool-use loop

Embeds `chat` (`src/content_crew/gemini_client.py:79-181`). The provider call
`client.messages.create(**create_kwargs)` is abstracted as a function from the
message history to a response (the remaining kwargs — model, system prompt,
declared tools, temperature — are fixed for the whole conversation, so they are
captured inside that function). A tool callable is a function from its arguments
to `Except`: `Except.error e` models the callable raising exception `e`, and
`Except.ok v` models a normal return whose `str()` is `v`. -/

structure ToolUseBlock where
  id : List Char
  name : List Char
  input : List (List Char × List Char)
deriving DecidableEq, Repr

/-- One block of a provider response's `content`: a text block or a tool-use block. -/
inductive ContentBlock : Type where
  | text (t : List Char)
  | toolUse (b : ToolUseBlock)
deriving DecidableEq, Repr

structure ChatResponse where
  stop_reason : List Char
  content : List ContentBlock
deriving DecidableEq, Repr

structure ToolResult where
  tool_use_id : List Char
  content : List Char
deriving DecidableEq, Repr

/-- One message of the conversation history: the initial user prompt is a plain
string, an assistant turn replays the response blocks, and a tool-results turn
carries the list of tool results. -/
inductive MsgContent : Type where
  | ofString (s : List Char)
  | ofBlocks (bs : List ContentBlock)
  | ofResults (rs : List ToolResult)
deriving DecidableEq, Repr

structure Message where
  role : List Char
  content : MsgContent
deriving DecidableEq, Repr

/-- A registered tool callable; `Except.error` models a raised exception. -/
def ToolFn : Type := List (List Char × List Char) → Except (List Char) (List Char)

/-- Model of the Python `tools` parameter (`dict[str, Callable] | None`). -/
def ToolRegistry : Type := Option (List (List Char × ToolFn))

/-- Registry lookup as the Python condition `tools and func_name in tools`
performs it: `none` (Python `None`, and likewise an empty dict, which is falsy
and holds no name anyway) never finds anything. -/
def lookupTool (tools : ToolRegistry) (name : List Char) : Option ToolFn :=
  match tools with
  | none => none
  | some ts => ts.lookup name

/-- The tool-use blocks of a response: `[b for b in response.content if b.type == "tool_use"]`
(`gemini_client.py:136-139`). -/
def toolUseBlocksOf (r : ChatResponse) : List ToolUseBlock :=
  r.content.filterMap (fun b =>
    match b with
    | .toolUse tb => some tb
    | .text _ => none)

/-- Execution of one requested tool call (`gemini_client.py:149-166`): a found
tool is invoked and a raised exception is converted to an error string; an
unknown name gets an `Unknown function` string. -/
def runToolCall (tools : ToolRegistry) (b : ToolUseBlock) : ToolResult :=
  match lookupTool tools b.name with
  | some f =>
    match f b.input with
    | .ok v => ⟨b.id, v⟩
    | .error e => ⟨b.id, "Error calling ".data ++ b.name ++ ": ".data ++ e⟩
  | none => ⟨b.id, "Unknown function: ".data ++ b.name⟩

/-- Final text extraction (`gemini_client.py:176-180`): the nonempty text blocks
joined with newlines. -/
def extractText (r : ChatResponse) : List Char :=
  List.intercalate ['\n'] (r.content.filterMap (fun b =>
    match b with
    | .text t => if t.isEmpty then none else some t
    | .toolUse _ => none))

/-- The assistant turn appended before executing a round's tools
(`messages.append({"role": "assistant", "content": response.content})`). -/
def assistantTurn (r : ChatResponse) : Message :=
  ⟨"assistant".data, .ofBlocks r.content⟩

/-- The single combined tool-results turn appended after executing a round's tools
(`messages.append({"role": "user", "content": tool_results})`). -/
def toolResultsTurn (tools : ToolRegistry) (r : ChatResponse) : Message :=
  ⟨"user".data, .ofResults ((toolUseBlocksOf r).map (runToolCall tools))⟩

/-- Outcome of `chat`: the returned text, the number of tool-execution rounds
run (`rounds`), and the provider response the loop stopped at. -/
structure ChatOutcome where
  text : List Char
  rounds : Nat
  finalResponse : ChatResponse
deriving DecidableEq, Repr

/-- The `while rounds < max_tool_rounds and response.stop_reason == "tool_use"`
loop (`gemini_client.py:134-173`), driven by `remaining = max_tool_rounds - rounds`
so that `remaining = 0` exactly when `rounds < max_tool_rounds` fails. -/
def chatLoop (provider : List Message → ChatResponse) (tools : ToolRegistry)
    (messages : List Message) (response : ChatResponse) (rounds : Nat) :
    Nat → ChatOutcome
  | 0 => ⟨extractText response, rounds, response⟩
  | remaining + 1 =>
    if response.stop_reason = "tool_use".data then
      if (toolUseBlocksOf response).isEmpty then
        ⟨extractText response, rounds, response⟩
      else
        let messages2 := messages ++ [assistantTurn response, toolResultsTurn tools response]
        chatLoop provider tools messages2 (provider messages2) (rounds + 1) remaining
    else ⟨extractText response, rounds, response⟩

/-- `chat` (`gemini_client.py:79-181`): initial history `[{"role": "user", ...}]`,
one initial provider send, then the tool-use loop with round budget `maxRounds`
(`max_tool_rounds`), returning the final text. -/
def chat (provider : List Message → ChatResponse) (tools : ToolRegistry)
    (userPrompt : List Char) (maxRounds : Nat) : ChatOutcome :=
  let messages := [⟨"user".data, .ofString userPrompt⟩]
  chatLoop provider tools messages (provider messages) 0 maxRounds

/-! ### Tool-declaration translator

Embeds `_convert_gemini_type`, `_convert_gemini_properties` and
`_convert_tool_declarations` (`src/content_crew/gemini_client.py:24-76`).
A Gemini-style property spec is a dict whose possible keys are `type`,
`description`, `properties`, `required` and `items`; an `Option` field models
key presence, and an insertion-ordered association list models a dict of
properties. -/

inductive GSpec : Type where
  | mk (type? : Option (List Char)) (description? : Option (List Char))
       (properties? : Option (List (List Char × GSpec)))
       (required? : Option (List (List Char)))
       (items? : Option GSpec)

def GSpec.type? : GSpec → Option (List Char)
  | .mk t _ _ _ _ => t

def GSpec.description? : GSpec → Option (List Char)
  | .mk _ d _ _ _ => d

def GSpec.properties? : GSpec → Option (List (List Char × GSpec))
  | .mk _ _ ps _ _ => ps

def GSpec.required? : GSpec → Option (List (List Char))
  | .mk _ _ _ req _ => req

def GSpec.items? : GSpec → Option GSpec
  | .mk _ _ _ _ it => it

/-- `_convert_gemini_type` (`gemini_client.py:24-26`): `t.lower()`. -/
def _convert_gemini_type (t : List Char) : List Char := lowerStr t

mutual

/-- The per-spec body of the `_convert_gemini_properties` loop
(`gemini_client.py:32-44`): each of the five keys is carried over only when
present; `type` is lower-cased, `properties` is converted recursively, and
`items` is converted by the `{"_": spec["items"]}` round trip, which equals a
direct recursive conversion of the items spec. -/
def convertSpec : GSpec → GSpec
  | .mk t d ps req it =>
    .mk (t.map _convert_gemini_type) d (convertPropsOpt ps) req (convertItemsOpt it)

def convertPropsOpt : Option (List (List Char × GSpec)) → Option (List (List Char × GSpec))
  | none => none
  | some ps => some (_convert_gemini_properties ps)

/-- `_convert_gemini_properties` (`gemini_client.py:29-45`): convert every
property spec of the dict, keeping names and order. -/
def _convert_gemini_properties : List (List Char × GSpec) → List (List Char × GSpec)
  | [] => []
  | (n, s) :: rest => (n, convertSpec s) :: _convert_gemini_properties rest

def convertItemsOpt : Option GSpec → Option GSpec
  | none => none
  | some s => some (convertSpec s)

end

/-- A Gemini-format function declaration: `name` is mandatory (`fd["name"]`),
`description` and `parameters` are accessed with `.get`. The `parameters` dict
has the same possible shape as a property spec (`properties`, `required`), so
`GSpec` models it. -/
structure FunctionDecl where
  name : List Char
  description? : Option (List Char)
  parameters? : Option GSpec

/-- A Gemini declaration group: `decl_group.get("function_declarations", [])`
makes a missing key behave as the empty list. -/
structure DeclGroup where
  function_declarations : List FunctionDecl

/-- The translated Anthropic-format `input_schema` dict. Its `type` and
`properties` keys are always written by the code; `required` is written only
when present in the source `parameters`. -/
structure InputSchema where
  type : List Char
  properties : List (List Char × GSpec)
  required? : Option (List (List Char))

/-- A translated Anthropic-format tool dict. The code always writes all three
keys, so `description?` being `some` reflects that the key is always emitted
(`fd.get("description", "")`). An `Option` keeps "key absent" expressible for
comparison with the source dialect. -/
structure AnthropicTool where
  name : List Char
  description? : Option (List Char)
  input_schema : InputSchema

/-- `params.get("properties", {})` after `params = fd.get("parameters", {})`. -/
def paramsProps (p? : Option GSpec) : List (List Char × GSpec) :=
  match p? with
  | none => []
  | some s => s.properties?.getD []

/-- The `if "required" in params` carry-over. -/
def paramsRequired (p? : Option GSpec) : Option (List (List Char)) :=
  match p? with
  | none => none
  | some s => s.required?

/-- Translation of one function declaration (`gemini_client.py:61-74`). -/
def convertDecl (fd : FunctionDecl) : AnthropicTool :=
  { name := fd.name
  , description? := some (fd.description?.getD [])
  , input_schema :=
    { type := "object".data
    , properties := _convert_gemini_properties (paramsProps fd.parameters?)
    , required? := paramsRequired fd.parameters? } }

/-- `_convert_tool_declarations` (`gemini_client.py:48-76`). -/
def _convert_tool_declarations (gemini_decls : List DeclGroup) : List AnthropicTool :=
  gemini_decls.flatMap (fun g => g.function_declarations.map convertDecl)

/-- A navigation step through a schema tree: descend into a named property of
an object spec, or into the `items` spec of an array spec. -/
inductive SchemaStep : Type where
  | intoProp (name : List Char)
  | intoItems

/-- Follow a path of schema steps from a spec; `none` when a step is undefined
(name not among the properties, or no `items` key). -/
def getSub : GSpec → List SchemaStep → Option GSpec
  | s, [] => some s
  | s, .intoProp n :: rest =>
    match (s.properties?.getD []).lookup n with
    | some s2 => getSub s2 rest
    | none => none
  | s, .intoItems :: rest =>
    match s.items? with
    | some s2 => getSub s2 rest
    | none => none

/-- The top-level properties of a translated tool (or of a source `parameters`
dict), wrapped as an object spec so that `getSub` paths can start there. -/
def specOfProps (ps : List (List Char × GSpec)) : GSpec :=
  .mk none none (some ps) none none

/-! #### Concrete declarations from `src/content_crew/agents/production.py` (QA_TOOL_DECL, lines 31-57) -/

def bannedCheckerDecl : FunctionDecl :=
  ⟨"banned_phrase_checker".data,
   some ("Scan article content for banned AI cliché phrases. Returns PASSED or FAILED with violations.".data),
   some (.mk (some ("OBJECT".data)) none
     (some [("content".data,
        .mk (some ("STRING".data)) (some ("Article content to scan".data)) none none none)])
     (some ["content".data]) none)⟩

def fileWriterDecl : FunctionDecl :=
  ⟨"file_writer".data,
   some ("Write markdown content to a file.".data),
   some (.mk (some ("OBJECT".data)) none
     (some [("content".data,
        .mk (some ("STRING".data)) (some ("Full markdown content".data)) none none none),
       ("output_path".data,
        .mk (some ("STRING".data)) (some ("File path to write to".data)) none none none)])
     (some ["content".data, "output_path".data]) none)⟩

def QA_TOOL_DECL : DeclGroup := ⟨[bannedCheckerDecl, fileWriterDecl]⟩

/-! ### Topic-map CSV parsing

Embeds `ContentFlow._parse_topic_map` (`src/content_crew/flow.py:392-421`), whose
body is identical to `web_flow._parse_topic_map` (`src/content_crew/web_flow.py:370-399`).
A `csv.DictReader` row is an association list from column name to raw cell text;
a missing column key makes `row.get(key, default)` return the default. The two
failure sources inside the row loop are `int(...)` on a non-numeric cell and the
pydantic bound `priority_score ∈ [1, 10]`. -/

def Row : Type := List (List Char × List Char)

/-- Characters stripped by `str.strip()` (the ASCII whitespace actually
occurring in CSV cells). -/
def isPyStripSpace (c : Char) : Bool :=
  c = ' ' || c = '\t' || c = '\n' || c = '\r' || c = '\x0b' || c = '\x0c'

/-- Model of Python `str.strip()`. -/
def pyStrip (s : List Char) : List Char :=
  ((s.dropWhile isPyStripSpace).reverse.dropWhile isPyStripSpace).reverse

def digitsToNat (ds : List Char) : Nat :=
  ds.foldl (fun n c => n * 10 + (c.toNat - '0'.toNat)) 0

/-- Model of Python `int(s)` on a string: optional surrounding whitespace,
optional sign, then at least one digit; anything else raises `ValueError`
(modelled as `Except.error`). -/
def pyInt (s : List Char) : Except (List Char) Int :=
  let t := pyStrip s
  let signed : Option (Bool × List Char) :=
    match t with
    | '-' :: rest => some (true, rest)
    | '+' :: rest => some (false, rest)
    | _ => some (false, t)
  match signed with
  | some (neg, ds) =>
    if ds.isEmpty || !(ds.all Char.isDigit) then
      .error ("invalid literal for int() with base 10".data)
    else
      .ok (if neg then -(digitsToNat ds : Int) else (digitsToNat ds : Int))
  | none => .error ("invalid literal for int() with base 10".data)

/-- `row.get(key, default).strip()` for a string column. -/
def rowGetStr (row : Row) (key dflt : List Char) : List Char :=
  pyStrip ((row.lookup key).getD dflt)

/-- `int(row.get(key, default))` for an integer column: a missing key yields the
integer default directly; a present cell goes through `int(...)`. -/
def rowGetInt (row : Row) (key : List Char) (dflt : Int) : Except (List Char) Int :=
  match row.lookup key with
  | none => .ok dflt
  | some s => pyInt s

/-- Construction of one `TopicMapEntry` from a CSV row (`flow.py:399-417`).
The `int(...)` conversions run in keyword order (`word_count_min`,
`word_count_max`, `priority_score`), then pydantic validates
`1 ≤ priority_score ≤ 10`; the first failure raises. -/
def parseRow (row : Row) : Except (List Char) TopicMapEntry := do
  let wmin ← rowGetInt row "word_count_min".data 1500
  let wmax ← rowGetInt row "word_count_max".data 2500
  let pscore ← rowGetInt row "priority_score".data 5
  if pscore < 1 || 10 < pscore then
    throw ("priority_score out of range".data)
  pure
    { topic_level := rowGetStr row "topic_level".data "supporting".data
    , parent_cluster := rowGetStr row "parent_cluster".data []
    , topic_name := rowGetStr row "topic_name".data []
    , primary_keyword := rowGetStr row "primary_keyword".data []
    , secondary_keywords := rowGetStr row "secondary_keywords".data []
    , search_intent := rowGetStr row "search_intent".data "informational".data
    , content_type := rowGetStr row "content_type".data "guide".data
    , word_count_min := wmin
    , word_count_max := wmax
    , target_entities := rowGetStr row "target_entities".data []
    , questions_to_answer := rowGetStr row "questions_to_answer".data []
    , information_gain_opportunity := rowGetStr row "information_gain_opportunity".data []
    , rag_optimization_notes := rowGetStr row "rag_optimization_notes".data []
    , internal_link_targets := rowGetStr row "internal_link_targets".data []
    , priority_score := pscore
    , competition_level := rowGetStr row "competition_level".data "medium".data
    , serp_features_opportunity := rowGetStr row "serp_features_opportunity".data [] }

/-- The row loop of `_parse_topic_map`: starting from the freshly reset state
(`self.state.topic_entries = []`), parse rows in order appending each entry;
a raising row aborts the loop with the entries accumulated so far (the
exception escapes to the outer `except`, which only logs). Returns the final
state and the raised error, if any. -/
def parseRowsLoop : List Row → List TopicMapEntry →
    List TopicMapEntry × Option (List Char)
  | [], acc => (acc, none)
  | r :: rest, acc =>
    match parseRow r with
    | .ok e => parseRowsLoop rest (acc ++ [e])
    | .error err => (acc, some err)

/-- `_parse_topic_map` (`flow.py:392-421`) as a state transformer on
`state.topic_entries`. `csvRows? = none` models `open(...)` itself raising
(file missing or unreadable): the state is never touched. When the file opens,
the state is first reset to `[]` and then extended row by row; any exception is
caught by the outer `except`, which logs and keeps whatever state the loop
reached. -/
def _parse_topic_map (prior : List TopicMapEntry) (csvRows? : Option (List Row)) :
    List TopicMapEntry :=
  match csvRows? with
  | none => prior
  | some rows => (parseRowsLoop rows []).1

/-! ## Theorems -/

/-! ### QA pass decision (claim C5) -/

lemma upperStr_PASSED : upperStr ("PASSED".data) = "PASSED".data := by decide

/-- C5: the QA pass decision is a pure case-insensitive substring test: for
every review output `r`, the controller classifies `r` as passed if and only if
the literal token `PASSED` occurs anywhere in `r` ignoring case; no other
feature of `r` affects the decision. -/
theorem qa_pass_decision_iff_case_insensitive_marker (r : List Char) :
    qaPassedCheck r = true ↔ occursCaseInsensitive ("PASSED".data) r := by
  unfold qaPassedCheck strContains occursCaseInsensitive
  rw [upperStr_PASSED]
  simp only [Bool.or_eq_true, decide_eq_true_eq]
  constructor
  · rintro (h | h)
    · have h1 : upperStr ("QA Status: PASSED".data) <:+: upperStr r := h.map Char.toUpper
      have h2 : ("PASSED".data) <:+: upperStr ("QA Status: PASSED".data) := by decide
      exact h2.trans h1
    · exact h
  · intro h
    exact Or.inr h

/-! ### QA retry controller (claims C3, C4) -/

lemma qaLoop_pass_spec (review : Nat → List Char → List Char) (base : List Char)
    (maxAttempts : Nat) :
    ∀ (d a j : Nat), j < d →
    (∀ i, a + 1 ≤ i → i < a + 1 + j → qaPassedCheck (qaTrace review base i) = false) →
    qaPassedCheck (qaTrace review base (a + 1 + j)) = true →
    qaLoop review maxAttempts (List.range' (a + 1) d) (qaTrace review base a)
      = ⟨qaTrace review base (a + 1 + j), true, a + 1 + j, j + 1⟩ := by
  intro d
  induction d with
  | zero => intro a j hj; omega
  | succ d ih =>
    intro a j hj hfail hpass
    rw [List.range'_succ]
    have hstep : review (a + 1) (qaTrace review base a) = qaTrace review base (a + 1) := rfl
    cases j with
    | zero =>
      simp only [qaLoop, hstep]
      rw [if_pos hpass]
    | succ j' =>
      have hfa : qaPassedCheck (qaTrace review base (a + 1)) = false :=
        hfail (a + 1) (by omega) (by omega)
      simp only [qaLoop, hstep]
      rw [if_neg (by simp [hfa])]
      have ih2 := ih (a + 1) j' (by omega)
        (by intro i hi1 hi2; exact hfail i (by omega) (by omega))
        (by have harith : a + 1 + (j' + 1) = a + 1 + 1 + j' := by omega
            rw [harith] at hpass; exact hpass)
      rw [show a + 1 + 1 = a + 2 from rfl] at ih2
      rw [ih2]
      have harith2 : a + 1 + 1 + j' = a + 1 + (j' + 1) := by omega
      simp [harith2]

/-- C3: for every `maxAttempts ≥ 1` and every review function whose outputs
fail the pass check on attempts `1..k-1` and satisfy it on attempt `k`
(`k ≤ maxAttempts`), `run_production` returns the attempt-`k` review output as
the final text, `passed = true`, and the 1-based attempt number `k` (having run
exactly `k` review invocations). -/
theorem qa_converges_at_attempt_k (review : Nat → List Char → List Char)
    (article : List Char) (maxAttempts k : Nat) (hk1 : 1 ≤ k) (hk : k ≤ maxAttempts)
    (hfail : ∀ i, 1 ≤ i → i < k → qaPassedCheck (qaTrace review article i) = false)
    (hpass : qaPassedCheck (qaTrace review article k) = true) :
    run_production article review maxAttempts
      = ⟨qaTrace review article k, true, k, k⟩ := by
  unfold run_production
  have hk0 : k = 0 + 1 + (k - 1) := by omega
  have H := qaLoop_pass_spec review article maxAttempts maxAttempts 0 (k - 1) (by omega)
    (by intro i hi1 hi2; exact hfail i (by omega) (by omega))
    (by rw [← hk0]; exact hpass)
  rw [show 0 + 1 + (k - 1) = k by omega, show k - 1 + 1 = k by omega] at H
  exact H

/-- Witness for C3: a review stub failing on attempt 1 and passing on attempt 2
with `maxAttempts = 3` converges with `(text, true, 2)` after 2 invocations. -/
theorem qa_converges_at_attempt_k_witness :
    run_production ("draft".data)
      (fun i _ => if i = 2 then "QA Status: PASSED".data else "needs work".data) 3
      = ⟨"QA Status: PASSED".data, true, 2, 2⟩ := by
  have h := qa_converges_at_attempt_k
    (fun i _ => if i = 2 then "QA Status: PASSED".data else "needs work".data)
    ("draft".data) 3 2 (by omega) (by omega)
    (by intro i hi1 hi2
        have hi : i = 1 := by omega
        subst hi; decide)
    (by decide)
  exact h.trans (by decide)

lemma qaLoop_fail_spec (review : Nat → List Char → List Char) (base : List Char)
    (maxAttempts : Nat) :
    ∀ (d a : Nat),
    (∀ i, a + 1 ≤ i → i ≤ a + d → qaPassedCheck (qaTrace review base i) = false) →
    qaLoop review maxAttempts (List.range' (a + 1) d) (qaTrace review base a)
      = ⟨qaTrace review base (a + d), false, maxAttempts, d⟩ := by
  intro d
  induction d with
  | zero => intro a _; simp [qaLoop]
  | succ d ih =>
    intro a hfail
    rw [List.range'_succ]
    have hstep : review (a + 1) (qaTrace review base a) = qaTrace review base (a + 1) := rfl
    have hfa : qaPassedCheck (qaTrace review base (a + 1)) = false :=
      hfail (a + 1) (by omega) (by omega)
    simp only [qaLoop, hstep]
    rw [if_neg (by simp [hfa])]
    have ih2 := ih (a + 1) (by intro i hi1 hi2; exact hfail i (by omega) (by omega))
    rw [show a + 1 + 1 = a + 2 from rfl] at ih2
    rw [ih2]
    simp [show a + 1 + d = a + (d + 1) by omega]

/-- C4: for every `maxAttempts ≥ 1` and every review function whose output
never satisfies the pass check, `run_production` performs exactly `maxAttempts`
review invocations, no more, and returns the last review output as the final
text, `passed = false` and `attemptsUsed = maxAttempts`; and (second conjunct)
each failing review output is itself the revision input of the next attempt. -/
theorem qa_exhausts_at_max_attempts (review : Nat → List Char → List Char)
    (article : List Char) (maxAttempts : Nat) (_hmax : 1 ≤ maxAttempts)
    (hfail : ∀ i, 1 ≤ i → i ≤ maxAttempts → qaPassedCheck (qaTrace review article i) = false) :
    run_production article review maxAttempts
      = ⟨qaTrace review article maxAttempts, false, maxAttempts, maxAttempts⟩
    ∧ ∀ i, qaTrace review article (i + 1) = review (i + 1) (qaTrace review article i) := by
  constructor
  · unfold run_production
    have H := qaLoop_fail_spec review article maxAttempts maxAttempts 0
      (by intro i hi1 hi2; exact hfail i (by omega) (by omega))
    rw [show 0 + maxAttempts = maxAttempts by omega] at H
    exact H
  · intro i; rfl

/-- Witness for C4: a review stub that never passes exhausts `maxAttempts = 3`
and returns the last review output with `(false, 3)` after 3 invocations. -/
theorem qa_exhausts_at_max_attempts_witness :
    run_production ("draft".data) (fun _ _ => "not good enough".data) 3
      = ⟨"not good enough".data, false, 3, 3⟩ := by
  have h := qa_exhausts_at_max_attempts (fun _ _ => "not good enough".data)
    ("draft".data) 3 (by omega)
    (by intro i hi1 hi2
        match i, hi1, hi2 with
        | 1, _, _ => decide
        | 2, _, _ => decide
        | 3, _, _ => decide)
  exact h.1.trans (by decide)

/-! ### Banned-phrase checker (claim C10) -/

lemma findOccPositions_eq_nil_iff (needle hay : List Char) :
    findOccPositions needle hay = [] ↔ ¬ needle <:+: hay := by
  unfold findOccPositions
  rw [List.filter_eq_nil_iff]
  constructor
  · intro h hinf
    obtain ⟨s, t, hst⟩ := hinf
    have hd : hay.drop s.length = needle ++ t := by
      rw [← hst, List.append_assoc]
      exact List.drop_left s (needle ++ t)
    have hlen : s.length < hay.length + 1 := by
      have hl := congrArg List.length hst
      simp at hl
      omega
    have hcon := h s.length (by rw [List.mem_range]; exact hlen)
    rw [hd] at hcon
    exact hcon (by rw [List.isPrefixOf_iff_prefix]; exact ⟨t, rfl⟩)
  · intro h i _ hp
    rw [List.isPrefixOf_iff_prefix] at hp
    obtain ⟨t, ht⟩ := hp
    exact h ⟨hay.take i, t, by rw [List.append_assoc, ht, List.take_append_drop]⟩

lemma bannedViolations_eq_nil_iff (content : List Char) :
    bannedViolations content = []
      ↔ ∀ p ∈ BANNED_PHRASES, ¬ (lowerStr p <:+: lowerStr content) := by
  unfold bannedViolations
  rw [List.flatMap_eq_nil_iff]
  simp only [List.map_eq_nil_iff, findOccPositions_eq_nil_iff]

lemma bannedViolations_length (content : List Char) :
    (bannedViolations content).length
      = (BANNED_PHRASES.map (phraseOccCount content)).sum := by
  unfold bannedViolations phraseOccCount
  rw [List.length_flatMap]
  congr 1
  simp

lemma not_PASSED_prefix_of_failed (x : List Char) :
    ¬ ("PASSED".data <+: ("FAILED: Found ".data ++ x)) := by
  intro h
  rw [show ("PASSED".data) = 'P' :: "ASSED".data by decide,
      show ("FAILED: Found ".data) = 'F' :: "AILED: Found ".data by decide] at h
  rw [List.cons_append, List.cons_prefix_cons] at h
  exact absurd h.1 (by decide)





/-- C10: for every content string, the banned-phrase checker returns a result
beginning with `PASSED` if and only if none of the 22 configured banned phrases
occurs as a case-insensitive substring of the content; otherwise it returns a
result beginning with `FAILED: Found N banned phrase violation(s)` where
`N ≥ 1` counts every (possibly overlapping) case-insensitive occurrence of
every banned phrase; and a passing checker result itself satisfies the QA
retry controller's substring test. -/
theorem banned_phrase_checker_spec (content : List Char) :
    (("PASSED".data <+: bannedPhraseCheckerRun content)
       ↔ ∀ p ∈ BANNED_PHRASES, ¬ (lowerStr p <:+: lowerStr content))
    ∧ ((∃ p ∈ BANNED_PHRASES, lowerStr p <:+: lowerStr content) →
         1 ≤ (bannedViolations content).length
         ∧ (bannedViolations content).length
             = (BANNED_PHRASES.map (phraseOccCount content)).sum
         ∧ (("FAILED: Found ".data ++ (Nat.repr (bannedViolations content).length).data
              ++ " banned phrase violation(s)".data) <+: bannedPhraseCheckerRun content))
    ∧ ((∀ p ∈ BANNED_PHRASES, ¬ (lowerStr p <:+: lowerStr content)) →
         qaPassedCheck (bannedPhraseCheckerRun content) = true) := by
  by_cases hv : bannedViolations content = []
  · have hrun : bannedPhraseCheckerRun content
        = "PASSED: No banned phrases found in the content.".data := by
      have he : (bannedViolations content).isEmpty = true := by
        rw [List.isEmpty_iff]; exact hv
      simp [bannedPhraseCheckerRun, he]
    refine ⟨?_, ?_, ?_⟩
    · rw [hrun]
      constructor
      · intro _
        exact (bannedViolations_eq_nil_iff content).mp hv
      · intro _
        decide
    · rintro ⟨p, hp, hinf⟩
      exact absurd hinf ((bannedViolations_eq_nil_iff content).mp hv p hp)
    · intro _
      rw [hrun]
      decide
  · have he : (bannedViolations content).isEmpty = false := by
      rw [Bool.eq_false_iff]
      intro hisEmpty
      exact hv (List.isEmpty_iff.mp hisEmpty)
    have hrun : bannedPhraseCheckerRun content
        = "FAILED: Found ".data ++ (Nat.repr (bannedViolations content).length).data ++
            " banned phrase violation(s):\n".data ++
            List.intercalate ['\n'] (bannedViolations content) := by
      simp [bannedPhraseCheckerRun, he]
    have hnall : ¬ ∀ p ∈ BANNED_PHRASES, ¬ (lowerStr p <:+: lowerStr content) :=
      fun hall => hv ((bannedViolations_eq_nil_iff content).mpr hall)
    refine ⟨?_, ?_, ?_⟩
    · constructor
      · intro h
        rw [hrun] at h
        rw [List.append_assoc, List.append_assoc] at h
        exact absurd h (not_PASSED_prefix_of_failed _)
      · intro hall
        exact absurd hall hnall
    · intro _
      refine ⟨?_, bannedViolations_length content, ?_⟩
      · have : (bannedViolations content).length ≠ 0 := by
          intro h0
          exact hv (List.length_eq_zero.mp h0)
        omega
      · rw [hrun]
        have hsplit : (" banned phrase violation(s):\n".data : List Char)
            = " banned phrase violation(s)".data ++ ":\n".data := by decide
        rw [hsplit]
        exact ⟨":\n".data ++ List.intercalate ['\n'] (bannedViolations content),
          by simp [List.append_assoc]⟩
    · intro hall
      exact absurd hall hnall

/-- Witness for C10: `We unlock synergy.` trips two banned phrases, and a
clean text makes the checker emit a result the QA pass check accepts. -/
theorem banned_phrase_checker_spec_witness :
    1 ≤ (bannedViolations ("We unlock synergy.".data)).length
    ∧ (bannedViolations ("We unlock synergy.".data)).length
        = (BANNED_PHRASES.map (phraseOccCount ("We unlock synergy.".data))).sum
    ∧ (("FAILED: Found ".data
         ++ (Nat.repr (bannedViolations ("We unlock synergy.".data)).length).data
         ++ " banned phrase violation(s)".data)
        <+: bannedPhraseCheckerRun ("We unlock synergy.".data)) :=
  (banned_phrase_checker_spec ("We unlock synergy.".data)).2.1
    ⟨"unlock".data, by decide, by decide⟩

/-! ### Priority-descending phase iteration (claim C9) -/

lemma insertDesc_perm {α : Type} (key : α → Int) (x : α) (l : List α) :
    (insertDesc key x l).Perm (x :: l) := by
  induction l with
  | nil => exact List.Perm.refl _
  | cons y ys ih =>
    unfold insertDesc
    by_cases h : key y ≤ key x
    · rw [if_pos h]
    · rw [if_neg h]
      exact (List.Perm.cons y ih).trans (List.Perm.swap x y ys)

lemma sortedByDesc_perm {α : Type} (key : α → Int) (l : List α) :
    (sortedByDesc key l).Perm l := by
  induction l with
  | nil => exact List.Perm.refl _
  | cons x xs ih =>
    exact (insertDesc_perm key x (sortedByDesc key xs)).trans (List.Perm.cons x ih)

lemma insertDesc_pairwise {α : Type} (key : α → Int) (x : α) (l : List α)
    (h : List.Pairwise (fun a b => key b ≤ key a) l) :
    List.Pairwise (fun a b => key b ≤ key a) (insertDesc key x l) := by
  induction l with
  | nil => simp [insertDesc]
  | cons y ys ih =>
    rw [List.pairwise_cons] at h
    unfold insertDesc
    by_cases hyx : key y ≤ key x
    · rw [if_pos hyx]
      rw [List.pairwise_cons]
      refine ⟨?_, List.pairwise_cons.mpr h⟩
      intro z hz
      rcases List.mem_cons.mp hz with hz | hz
      · subst hz; exact hyx
      · exact le_trans (h.1 z hz) hyx
    · rw [if_neg hyx]
      rw [List.pairwise_cons]
      refine ⟨?_, ih h.2⟩
      intro z hz
      have hz2 : z ∈ x :: ys := (insertDesc_perm key x ys).mem_iff.mp hz
      rcases List.mem_cons.mp hz2 with hz2 | hz2
      · subst hz2; omega
      · exact h.1 z hz2

lemma sortedByDesc_pairwise {α : Type} (key : α → Int) (l : List α) :
    List.Pairwise (fun a b => key b ≤ key a) (sortedByDesc key l) := by
  induction l with
  | nil => simp [sortedByDesc]
  | cons x xs ih => exact insertDesc_pairwise key x _ ih

lemma insertDesc_filter {α : Type} (key : α → Int) (c : Int) (x : α) (l : List α) :
    (insertDesc key x l).filter (fun a => key a == c)
      = (x :: l).filter (fun a => key a == c) := by
  induction l with
  | nil => rfl
  | cons y ys ih =>
    unfold insertDesc
    by_cases hyx : key y ≤ key x
    · rw [if_pos hyx]
    · rw [if_neg hyx]
      by_cases hyc : key y == c
      · have hxc : ¬ (key x == c) := by
          simp only [beq_iff_eq] at hyc ⊢
          omega
        simp only [List.filter_cons, hyc, hxc, ih]
        simp [List.filter_cons, hxc]
      · have hyc' : (key y == c) = false := by
          rw [beq_eq_false_iff_ne]
          simpa using hyc
        simp only [List.filter_cons, hyc', ih]
        simp [List.filter_cons, hyc']
  
lemma sortedByDesc_filter {α : Type} (key : α → Int) (c : Int) (l : List α) :
    (sortedByDesc key l).filter (fun a => key a == c)
      = l.filter (fun a => key a == c) := by
  induction l with
  | nil => rfl
  | cons x xs ih =>
    unfold sortedByDesc
    rw [insertDesc_filter]
    simp only [List.filter_cons, ih]

/-- C9: the brief phase and the production phase iterate over topic entries and
briefs in an order that is non-increasing by `priority_score`, with entries of
equal score kept in their original input order (permutation + non-increasing
pairwise order + per-score filter stability characterize the stable descending
sort); concretely, input scores `[3, 9, 5, 9]` are visited as first 9, second 9,
5, then 3. -/
theorem phase_iteration_priority_order :
    (∀ entries : List TopicMapEntry,
       (briefPhaseOrder entries).Perm entries
       ∧ List.Pairwise (fun a b => b.priority_score ≤ a.priority_score)
           (briefPhaseOrder entries)
       ∧ ∀ c : Int, (briefPhaseOrder entries).filter (fun t => t.priority_score == c)
           = entries.filter (fun t => t.priority_score == c))
    ∧ (∀ briefs : List ContentBrief,
       (productionPhaseOrder briefs).Perm briefs
       ∧ List.Pairwise (fun a b => b.priority_score ≤ a.priority_score)
           (productionPhaseOrder briefs)
       ∧ ∀ c : Int, (productionPhaseOrder briefs).filter (fun b => b.priority_score == c)
           = briefs.filter (fun b => b.priority_score == c))
    ∧ briefPhaseOrder
        [mkTopicEntry "t1".data 3, mkTopicEntry "t2".data 9,
         mkTopicEntry "t3".data 5, mkTopicEntry "t4".data 9]
        = [mkTopicEntry "t2".data 9, mkTopicEntry "t4".data 9,
           mkTopicEntry "t3".data 5, mkTopicEntry "t1".data 3] := by
  refine ⟨fun entries => ⟨sortedByDesc_perm _ _, sortedByDesc_pairwise _ _,
            fun c => sortedByDesc_filter _ c _⟩,
          fun briefs => ⟨sortedByDesc_perm _ _, sortedByDesc_pairwise _ _,
            fun c => sortedByDesc_filter _ c _⟩,
          by decide⟩

/-! ### Conversational tool-use loop (claims C1, C2) -/

lemma chatLoop_text_eq_finalResponse (provider : List Message → ChatResponse)
    (tools : ToolRegistry) :
    ∀ (remaining : Nat) (messages : List Message) (response : ChatResponse) (rounds : Nat),
    (chatLoop provider tools messages response rounds remaining).text
      = extractText (chatLoop provider tools messages response rounds remaining).finalResponse := by
  intro remaining
  induction remaining with
  | zero => intro messages response rounds; rfl
  | succ remaining ih =>
    intro messages response rounds
    unfold chatLoop
    by_cases h1 : response.stop_reason = "tool_use".data
    · rw [if_pos h1]
      by_cases h2 : (toolUseBlocksOf response).isEmpty
      · rw [if_pos h2]
      · rw [if_neg h2]
        exact ih _ _ _
    · rw [if_neg h1]

lemma chatLoop_rounds_when_all_tool_use (provider : List Message → ChatResponse)
    (tools : ToolRegistry)
    (hp : ∀ msgs, (provider msgs).stop_reason = "tool_use".data
            ∧ toolUseBlocksOf (provider msgs) ≠ []) :
    ∀ (remaining : Nat) (messages : List Message) (response : ChatResponse) (rounds : Nat),
    response.stop_reason = "tool_use".data → toolUseBlocksOf response ≠ [] →
    (chatLoop provider tools messages response rounds remaining).rounds
      = rounds + remaining := by
  intro remaining
  induction remaining with
  | zero => intro messages response rounds _ _; rfl
  | succ remaining ih =>
    intro messages response rounds h1 h2
    unfold chatLoop
    rw [if_pos h1]
    have h2e : (toolUseBlocksOf response).isEmpty = false := by
      rw [Bool.eq_false_iff]
      intro h
      exact h2 (List.isEmpty_iff.mp h)
    rw [if_neg (by simp [h2e])]
    have hrec := ih (messages ++ [assistantTurn response, toolResultsTurn tools response])
      (provider (messages ++ [assistantTurn response, toolResultsTurn tools response]))
      (rounds + 1) (hp _).1 (hp _).2
    rw [hrec]
    omega

/-- C1: for every round cap `maxRounds ≥ 1` and every provider whose every
response requests at least one tool invocation, `chat` terminates after exactly
`maxRounds` tool-execution rounds and returns (totally, without raising) the
text of the final provider response — which may be the empty string, as the
witness shows. -/
theorem chat_terminates_at_round_cap (provider : List Message → ChatResponse)
    (tools : ToolRegistry) (userPrompt : List Char) (maxRounds : Nat)
    (_hmax : 1 ≤ maxRounds)
    (hp : ∀ msgs, (provider msgs).stop_reason = "tool_use".data
            ∧ toolUseBlocksOf (provider msgs) ≠ []) :
    (chat provider tools userPrompt maxRounds).rounds = maxRounds
    ∧ (chat provider tools userPrompt maxRounds).text
        = extractText (chat provider tools userPrompt maxRounds).finalResponse := by
  constructor
  · unfold chat
    have := chatLoop_rounds_when_all_tool_use provider tools hp maxRounds
      [⟨"user".data, .ofString userPrompt⟩]
      (provider [⟨"user".data, .ofString userPrompt⟩]) 0 (hp _).1 (hp _).2
    rw [this]
    omega
  · exact chatLoop_text_eq_finalResponse provider tools maxRounds _ _ _

/-- Witness for C1: a scripted provider stub that always requests one more tool
call makes `chat` stop at exactly 3 rounds with the empty final text. -/
theorem chat_terminates_at_round_cap_witness :
    (chat (fun _ => ⟨"tool_use".data, [.toolUse ⟨"1".data, "t".data, []⟩]⟩)
        none ("hi".data) 3).rounds = 3
    ∧ (chat (fun _ => ⟨"tool_use".data, [.toolUse ⟨"1".data, "t".data, []⟩]⟩)
        none ("hi".data) 3).text
        = extractText (chat (fun _ => ⟨"tool_use".data, [.toolUse ⟨"1".data, "t".data, []⟩]⟩)
            none ("hi".data) 3).finalResponse
    ∧ (chat (fun _ => ⟨"tool_use".data, [.toolUse ⟨"1".data, "t".data, []⟩]⟩)
        none ("hi".data) 3).text = [] := by
  have h := chat_terminates_at_round_cap
    (fun _ => ⟨"tool_use".data, [.toolUse ⟨"1".data, "t".data, []⟩]⟩)
    none ("hi".data) 3 (by omega)
    (fun msgs => ⟨rfl,
      show toolUseBlocksOf ⟨"tool_use".data, [.toolUse ⟨"1".data, "t".data, []⟩]⟩ ≠ []
        by decide⟩)
  exact ⟨h.1, h.2, by decide⟩





/-- C2: within a round of `chat`, a registered tool whose invocation raises
produces an error-describing string result instead of a propagated exception;
an unregistered name (including when no registry was supplied) produces an
`Unknown function` string; every requested call gets exactly one result; and
the round completes by appending the assistant turn plus the single combined
tool-results turn before the next provider send. -/
theorem tool_failure_isolated_in_round (tools : ToolRegistry) (b : ToolUseBlock) :
    (∀ (f : ToolFn) (e : List Char), lookupTool tools b.name = some f →
       f b.input = Except.error e →
       runToolCall tools b = ⟨b.id, "Error calling ".data ++ b.name ++ ": ".data ++ e⟩)
    ∧ (lookupTool tools b.name = none →
       runToolCall tools b = ⟨b.id, "Unknown function: ".data ++ b.name⟩)
    ∧ lookupTool none b.name = none
    ∧ (∀ blocks : List ToolUseBlock, (blocks.map (runToolCall tools)).length = blocks.length)
    ∧ (∀ (provider : List Message → ChatResponse) (messages : List Message)
         (response : ChatResponse) (rounds remaining : Nat),
        response.stop_reason = "tool_use".data → toolUseBlocksOf response ≠ [] →
        chatLoop provider tools messages response rounds (remaining + 1)
          = chatLoop provider tools
              (messages ++ [assistantTurn response, toolResultsTurn tools response])
              (provider (messages ++ [assistantTurn response, toolResultsTurn tools response]))
              (rounds + 1) remaining) := by
  refine ⟨?_, ?_, rfl, ?_, ?_⟩
  · intro f e hf he
    unfold runToolCall
    rw [hf]
    simp only [he]
  · intro hf
    unfold runToolCall
    rw [hf]
  · intro blocks
    exact List.length_map blocks _
  · intro provider messages response rounds remaining h1 h2
    have h2e : (toolUseBlocksOf response).isEmpty = false := by
      rw [Bool.eq_false_iff]
      intro h
      exact h2 (List.isEmpty_iff.mp h)
    conv_lhs => rw [chatLoop]
    rw [if_pos h1, if_neg (by simp [h2e])]

/-- Witness for C2: a registered tool that raises `boom` yields the
`Error calling t: boom` result string. -/
theorem tool_failure_isolated_in_round_witness :
    runToolCall (some [("t".data, fun _ => Except.error ("boom".data))])
        ⟨"id".data, "t".data, []⟩
      = ⟨"id".data, "Error calling t: boom".data⟩ := by
  have h := (tool_failure_isolated_in_round
      (some [("t".data, fun _ => Except.error ("boom".data))])
      ⟨"id".data, "t".data, []⟩).1
    (fun _ => Except.error ("boom".data)) ("boom".data) rfl rfl
  exact h.trans (by decide)

/-! ### Tool-declaration translator (claims C6, C7) -/

lemma lookup_convertProps (n : List Char) :
    ∀ l : List (List Char × GSpec),
    (_convert_gemini_properties l).lookup n = (l.lookup n).map convertSpec := by
  intro l
  induction l with
  | nil => rfl
  | cons p rest ih =>
    obtain ⟨m, s⟩ := p
    unfold _convert_gemini_properties
    simp only [List.lookup]
    cases hnm : (n == m) with
    | true => rfl
    | false => simpa using ih

lemma getSub_convertSpec :
    ∀ (path : List SchemaStep) (s : GSpec),
    getSub (convertSpec s) path = (getSub s path).map convertSpec := by
  intro path
  induction path with
  | nil => intro s; rfl
  | cons step rest ih =>
    intro s
    obtain ⟨t, d, ps, req, it⟩ := s
    cases step with
    | intoProp n =>
      cases ps with
      | none => rfl
      | some l =>
        show (match (_convert_gemini_properties l).lookup n with
              | some s2 => getSub s2 rest
              | none => none)
            = Option.map convertSpec (match l.lookup n with
              | some s2 => getSub s2 rest
              | none => none)
        rw [lookup_convertProps]
        cases l.lookup n with
        | none => rfl
        | some s2 =>
          simp only [Option.map]
          exact ih s2
    | intoItems =>
      cases it with
      | none => rfl
      | some s2 =>
        show getSub (convertSpec s2) rest = Option.map convertSpec (getSub s2 rest)
        exact ih s2

lemma convertProps_names :
    ∀ l : List (List Char × GSpec),
    (_convert_gemini_properties l).map Prod.fst = l.map Prod.fst := by
  intro l
  induction l with
  | nil => rfl
  | cons p rest ih =>
    obtain ⟨m, s⟩ := p
    unfold _convert_gemini_properties
    simp only [List.map]
    rw [ih]

lemma convertSpec_fields (s : GSpec) :
    (convertSpec s).description? = s.description?
    ∧ (convertSpec s).required? = s.required?
    ∧ (convertSpec s).type? = s.type?.map lowerStr
    ∧ ((convertSpec s).properties?.getD []).map Prod.fst
        = (s.properties?.getD []).map Prod.fst := by
  obtain ⟨t, d, ps, req, it⟩ := s
  refine ⟨rfl, rfl, rfl, ?_⟩
  cases ps with
  | none => rfl
  | some l => exact convertProps_names l

/-- C6: the declaration translator preserves, for every declaration in every
group, the tool name, every property name, every description, membership of
every name in each `required` list (carried through unchanged), and every
primitive type token up to case (lower-cased), recursively through nested
object properties and array `items` to arbitrary depth (captured by the
`getSub` path correspondence plus the per-node field equalities), and sets the
top-level `input_schema.type` to `object`. -/
theorem translator_preserves_fields (decls : List DeclGroup) (g : DeclGroup)
    (fd : FunctionDecl) (hg : g ∈ decls) (hfd : fd ∈ g.function_declarations) :
    convertDecl fd ∈ _convert_tool_declarations decls
    ∧ (convertDecl fd).name = fd.name
    ∧ (convertDecl fd).input_schema.type = "object".data
    ∧ (convertDecl fd).input_schema.required? = paramsRequired fd.parameters?
    ∧ (∀ path : List SchemaStep,
        getSub (specOfProps (convertDecl fd).input_schema.properties) path
          = (getSub (specOfProps (paramsProps fd.parameters?)) path).map convertSpec)
    ∧ (∀ s : GSpec, (convertSpec s).description? = s.description?
        ∧ (convertSpec s).required? = s.required?
        ∧ (convertSpec s).type? = s.type?.map lowerStr
        ∧ ((convertSpec s).properties?.getD []).map Prod.fst
            = (s.properties?.getD []).map Prod.fst) := by
  refine ⟨?_, rfl, rfl, rfl, ?_, convertSpec_fields⟩
  · unfold _convert_tool_declarations
    rw [List.mem_flatMap]
    exact ⟨g, hg, List.mem_map_of_mem convertDecl hfd⟩
  · intro path
    have hwrap : specOfProps (convertDecl fd).input_schema.properties
        = convertSpec (specOfProps (paramsProps fd.parameters?)) := rfl
    rw [hwrap]
    exact getSub_convertSpec path _

/-- Witness for C6: the translator applied to the source tree's own
`QA_TOOL_DECL` declaration group. -/
theorem translator_preserves_fields_witness :
    convertDecl bannedCheckerDecl ∈ _convert_tool_declarations [QA_TOOL_DECL]
    ∧ (convertDecl bannedCheckerDecl).name = "banned_phrase_checker".data
    ∧ (convertDecl bannedCheckerDecl).input_schema.type = "object".data
    ∧ (convertDecl bannedCheckerDecl).input_schema.required? = some ["content".data] := by
  have h := translator_preserves_fields [QA_TOOL_DECL] QA_TOOL_DECL bannedCheckerDecl
    (List.mem_singleton.mpr rfl) (List.mem_cons_self bannedCheckerDecl [fileWriterDecl])
  exact ⟨h.1, h.2.1.trans rfl, h.2.2.1, h.2.2.2.1.trans rfl⟩

/-- Counterexample to C7: a declaration with no `description` is not omitted
from the translated output — the code emits `description` with the fabricated
default `""` (`fd.get("description", "")` at `gemini_client.py:72`). -/
theorem translator_fabricates_empty_description :
    (convertDecl ⟨"t".data, none, none⟩).description? ≠ none
    ∧ (convertDecl ⟨"t".data, none, none⟩).description? = some [] := by
  constructor
  · intro h
    simp [convertDecl] at h
  · rfl

/-- C7 amended: any field absent in a property spec (`type`, `description`,
`properties`, `required`, `items`) is omitted from the translated property
output, and an absent `parameters.required` is omitted from `input_schema`;
but a declaration with no `description` is emitted with the fabricated default
empty string. -/
theorem translator_omission_amended (s : GSpec) (fd : FunctionDecl) :
    (s.type? = none → (convertSpec s).type? = none)
    ∧ (s.description? = none → (convertSpec s).description? = none)
    ∧ (s.properties? = none → (convertSpec s).properties? = none)
    ∧ (s.required? = none → (convertSpec s).required? = none)
    ∧ (s.items? = none → (convertSpec s).items? = none)
    ∧ (paramsRequired fd.parameters? = none → (convertDecl fd).input_schema.required? = none)
    ∧ (fd.description? = none → (convertDecl fd).description? = some []) := by
  obtain ⟨t, d, ps, req, it⟩ := s
  refine ⟨?_, ?_, ?_, ?_, ?_, ?_, ?_⟩
  · intro h
    simp only [GSpec.type?] at h
    subst h
    rfl
  · intro h
    exact h
  · intro h
    simp only [GSpec.properties?] at h
    subst h
    rfl
  · intro h
    exact h
  · intro h
    simp only [GSpec.items?] at h
    subst h
    rfl
  · intro h
    unfold convertDecl
    exact h
  · intro h
    unfold convertDecl
    rw [h]
    rfl

/-- Witness for C7 amended: concrete all-absent spec and description-less
declaration. -/
theorem translator_omission_amended_witness :
    (convertSpec (.mk none none none none none)).type? = none
    ∧ (convertSpec (.mk none none none none none)).items? = none
    ∧ (convertDecl ⟨"t".data, none, none⟩).input_schema.required? = none
    ∧ (convertDecl ⟨"t".data, none, none⟩).description? = some [] := by
  have h := translator_omission_amended (.mk none none none none none)
    ⟨"t".data, none, none⟩
  exact ⟨h.1 rfl, h.2.2.2.2.1 rfl, h.2.2.2.2.2.1 rfl, h.2.2.2.2.2.2 rfl⟩

/-! ### Topic-map CSV parsing (claim C8) -/

/-- Counterexample to C8: when a row raises (here `int("abc")` on
`word_count_min`), the parse is caught, but the previously parsed entries are
NOT left as they were — the state was reset to `[]` inside the `try` before the
row loop, so the prior single-entry state ends up empty. -/
theorem parse_topic_map_clobbers_prior_state :
    (∃ msg, parseRow [("word_count_min".data, "abc".data)] = Except.error msg)
    ∧ _parse_topic_map [mkTopicEntry "x".data 5]
        (some [[("word_count_min".data, "abc".data)]]) = []
    ∧ _parse_topic_map [mkTopicEntry "x".data 5]
        (some [[("word_count_min".data, "abc".data)]]) ≠ [mkTopicEntry "x".data 5] := by
  refine ⟨⟨"invalid literal for int() with base 10".data, rfl⟩, by decide, by decide⟩

lemma parseRowsLoop_spec (bad : Row) (rest : List Row) (msg : List Char)
    (hbad : parseRow bad = Except.error msg) :
    ∀ (good : List Row) (entries : List TopicMapEntry),
    List.Forall₂ (fun r e => parseRow r = Except.ok e) good entries →
    ∀ acc : List TopicMapEntry,
    parseRowsLoop (good ++ bad :: rest) acc = (acc ++ entries, some msg) := by
  intro good entries h
  induction h with
  | nil =>
    intro acc
    simp only [List.nil_append, parseRowsLoop, hbad, List.append_nil]
  | cons hre hrest ih =>
    intro acc
    rw [List.cons_append]
    simp only [parseRowsLoop, hre]
    rw [ih]
    simp

/-- C8 amended: when parsing raises on a row, the exception is caught (the
parse routine returns normally), but the pipeline state is replaced by the
partially parsed prefix of rows before the failing row — possibly empty — not
by the prior entries; only when opening the file itself fails is the prior
state left untouched. -/
theorem parse_topic_map_amended (prior : List TopicMapEntry) (good : List Row)
    (entries : List TopicMapEntry) (bad : Row) (rest : List Row) (msg : List Char)
    (hgood : List.Forall₂ (fun r e => parseRow r = Except.ok e) good entries)
    (hbad : parseRow bad = Except.error msg) :
    _parse_topic_map prior (some (good ++ bad :: rest)) = entries
    ∧ _parse_topic_map prior none = prior := by
  constructor
  · show (parseRowsLoop (good ++ bad :: rest) []).1 = entries
    rw [parseRowsLoop_spec bad rest msg hbad good entries hgood []]
    simp
  · rfl

/-- Witness for C8 amended: a first-row failure leaves the empty partial state,
and an open failure preserves the prior state. -/
theorem parse_topic_map_amended_witness :
    _parse_topic_map [mkTopicEntry "x".data 5]
        (some [[("word_count_min".data, "abc".data)]]) = []
    ∧ _parse_topic_map [mkTopicEntry "x".data 5] none = [mkTopicEntry "x".data 5] :=
  parse_topic_map_amended [mkTopicEntry "x".data 5] [] []
    [("word_count_min".data, "abc".data)] []
    ("invalid literal for int() with base 10".data) List.Forall₂.nil rfl

end ContentCrew
